import Mathlib

/-!
Shallow embedding of `src/snowpack/src/plugins/plugin-optimize.ts`, the default
post-build optimization pass of snowpack, together with models of the external
collaborators the plugin calls (the Node `path` module, the glob matcher, the
`es-module-lexer` parser, the esbuild minifier service, and the `util.ts`
helpers that are not part of the analysed sources).

Paths are POSIX strings.  String data is manipulated at the `List Char` level
so that every definition is structural and evaluates inside the kernel.
-/

namespace PluginOptimize

/-- `leadsWith pre l` is true when `pre` is an initial run of `l`
(model of a "starts with" test on character lists). -/
def leadsWith : List Char → List Char → Bool
  | [], _ => true
  | _ :: _, [] => false
  | a :: as, b :: bs => a = b && leadsWith as bs

/-- `occursIn needle hay` is true when `needle` appears contiguously inside `hay`. -/
def occursIn (needle : List Char) : List Char → Bool
  | [] => needle.isEmpty
  | c :: t => leadsWith needle (c :: t) || occursIn needle t

/-- Split a character list at every `/`, keeping empty segments
(model of splitting a POSIX path into its segments). -/
def splitSlashC : List Char → List (List Char)
  | [] => [[]]
  | c :: t =>
    let r := splitSlashC t
    if c = '/' then [] :: r
    else
      match r with
      | [] => [[c]]
      | h :: rt => (c :: h) :: rt

/-- Join segments back with `/` separators. -/
def joinSegsC : List (List Char) → List Char
  | [] => []
  | [s] => s
  | s :: rest => s ++ '/' :: joinSegsC rest

/-- Model of JavaScript `Array.prototype.join` on strings. -/
def joinSep (sep : String) : List String → String
  | [] => ""
  | [x] => x
  | x :: rest => x ++ sep ++ joinSep sep rest

/-- Normalize path segments: drop empty and `.` segments, let `..` pop the
previous segment (model of the normalization Node's path functions apply). -/
def normSegs (segs : List (List Char)) : List (List Char) :=
  segs.foldl
    (fun acc s =>
      if s = [] ∨ s = ['.'] then acc
      else if s = ['.', '.'] then acc.dropLast
      else acc ++ [s])
    []

/-- Model of Node `path.dirname` for POSIX paths: everything before the last
slash; `.` when the path has no slash, `/` for a direct child of the root. -/
def dirname (p : String) : String :=
  match (splitSlashC p.toList).dropLast with
  | [] => "."
  | [[]] => "/"
  | parts => String.mk (joinSegsC parts)

/-- Model of Node `path.resolve dir spec` when `dir` is absolute: an absolute
`spec` wins, otherwise `spec` is appended to `dir`; the result is normalized. -/
def resolvePath (dir spec : String) : String :=
  let raw := if leadsWith ['/'] spec.toList then spec.toList else dir.toList ++ '/' :: spec.toList
  String.mk ('/' :: joinSegsC (normSegs (splitSlashC raw)))

/-- Model of Node `path.join a b` for POSIX paths: concatenate with a slash and
normalize, keeping the result absolute exactly when `a` is absolute. -/
def joinPath (a b : String) : String :=
  let segs := normSegs (splitSlashC (a.toList ++ '/' :: b.toList))
  if leadsWith ['/'] a.toList then String.mk ('/' :: joinSegsC segs)
  else String.mk (joinSegsC segs)

/-- `relSegs f t` drops the common leading segments of `f` and `t` and replaces
every remaining segment of `f` by `..`. -/
def relSegs : List (List Char) → List (List Char) → List (List Char)
  | [], ts => ts
  | fs, [] => fs.map (fun _ => ['.', '.'])
  | f :: fs, t :: ts =>
    if f = t then relSegs fs ts
    else (f :: fs).map (fun _ => ['.', '.']) ++ t :: ts

/-- Modelled from the spec: `relativeURL` lives in `src/util.ts`, which is not
among the analysed sources.  The spec describes it as "a relative-path
computation utility (two absolute paths in, relative reference string out)"
whose outputs look like `./util.js` (§8): the relative POSIX path from the
first directory to the second path, prefixed with `./` when it does not
already climb upward. -/
def relativeURL (fromDir toPath : String) : String :=
  let rel := relSegs (normSegs (splitSlashC fromDir.toList)) (normSegs (splitSlashC toPath.toList))
  if leadsWith ['.', '.'] (joinSegsC rel) then String.mk (joinSegsC rel)
  else String.mk ('.' :: '/' :: joinSegsC rel)

/-- Lowercase an ASCII character. -/
def lowerChar (c : Char) : Char :=
  if 'A' ≤ c ∧ c ≤ 'Z' then Char.ofNat (c.toNat + 32) else c

/-- Split a character list at every `.`. -/
def splitDotC : List Char → List (List Char)
  | [] => [[]]
  | c :: t =>
    let r := splitDotC t
    if c = '.' then [] :: r
    else
      match r with
      | [] => [[c]]
      | h :: rt => (c :: h) :: rt

/-- Modelled from the spec: `getExt` lives in `src/util.ts`, which is not among
the analysed sources.  The spec says dispatch is "by file extension,
case-sensitive on the canonical lowercase extension", so `baseExt` is the final
dot-suffix of the file's base name, lowercased, and `""` when there is none. -/
def baseExt (file : String) : String :=
  match splitDotC ((splitSlashC file.toList).getLastD []) with
  | [] => ""
  | [_] => ""
  | parts => String.mk ('.' :: (parts.getLastD []).map lowerChar)

/-! ### Model of the external glob matcher

The plugin calls `glob.sync('**/*', {cwd, ignore})`.  We model the fragment of
glob-pattern matching it exercises: a pattern is a `/`-separated list of
segments; the segment `**` matches any (possibly empty) run of segments, and
inside an ordinary segment `*` matches any (possibly empty) run of characters
other than `/`.  Matching is against the path relative to the scan root. -/

/-- All suffixes of a list, longest first (including the list itself and `[]`). -/
def suffixes : List α → List (List α)
  | [] => [[]]
  | a :: t => (a :: t) :: suffixes t

/-- Glob matching of one pattern segment against one path segment
(`*` matches any run of non-separator characters, every other pattern
character matches itself). -/
def segChars : List Char → List Char → Bool
  | [], cs => cs.isEmpty
  | p :: ps, cs =>
    if p = '*' then (suffixes cs).any (fun s => segChars ps s)
    else
      match cs with
      | [] => false
      | c :: ct => p = c && segChars ps ct

/-- Glob matching of a segment-list pattern against a segment-list path
(`**` matches any run of whole segments). -/
def globSegs : List (List Char) → List (List Char) → Bool
  | [], segs => segs.isEmpty
  | p :: ps, segs =>
    if p = ['*', '*'] then (suffixes segs).any (fun s => globSegs ps s)
    else
      match segs with
      | [] => false
      | s :: ss => segChars p s && globSegs ps ss

/-- Whole-pattern glob match on POSIX relative paths. -/
def globMatch (pat p : String) : Bool :=
  globSegs (splitSlashC pat.toList) (splitSlashC p.toList)

/-! ### Model of `String.prototype.localeCompare`

`writeModulePreloadFile` sorts with the comparator `(a, b) => a.localeCompare(b)`.
`localeCompare` is the host's locale-aware collation, not code-point order.  We
model the default (root) collation restricted to ASCII strings: strings are
compared by primary weights first (letters compare case-insensitively and after
every non-letter character, non-letters keep code-point order among themselves)
and ties are broken by case, lowercase before uppercase — e.g. `"a"` sorts
before `"B"`, while code-point order puts `"B"` first. -/

/-- Primary collation weight of a character (by code point): non-letters keep
their code point, ASCII letters are case-folded and placed after everything
else (the offset 4294967296 exceeds every code point). -/
def collPrimary (c : Char) : Nat :=
  if 97 ≤ c.toNat ∧ c.toNat ≤ 122 then 4294967296 + c.toNat
  else if 65 ≤ c.toNat ∧ c.toNat ≤ 90 then 4294967296 + c.toNat + 32
  else c.toNat

/-- Case weight of a character: lowercase (and non-letters) before uppercase. -/
def collCase (c : Char) : Nat :=
  if 65 ≤ c.toNat ∧ c.toNat ≤ 90 then 1 else 0

/-- Lexicographic comparison of weight lists. -/
def lexCompare : List Nat → List Nat → Ordering
  | [], [] => .eq
  | [], _ :: _ => .lt
  | _ :: _, [] => .gt
  | a :: as, b :: bs =>
    if a < b then .lt else if b < a then .gt else lexCompare as bs

/-- The modelled `localeCompare`: compare all primary weights first, then break
ties with the case weights. -/
def localeCompareM (a b : String) : Ordering :=
  match lexCompare (a.toList.map collPrimary) (b.toList.map collPrimary) with
  | .eq => lexCompare (a.toList.map collCase) (b.toList.map collCase)
  | o => o

/-- The "≤" relation induced by the modelled collation. -/
def localeLe (a b : String) : Prop := localeCompareM a b ≠ .gt

instance : DecidableRel localeLe := fun a b => by
  unfold localeLe; infer_instance

/-! ### Embedding of `plugin-optimize.ts`

File reads are modelled by a function `fsRead : String → Except String String`
(`.error` = the read throws), the script branch's write-back by
`fsWrite : String → String → Except String Unit` (`.error` = the write
throws, a failure path the branch's `try`/`catch` also covers); successful
writes are recorded as data in the outcome.  The two external services the
transform calls — the `es-module-lexer` `parse` and the esbuild `transform` —
are parameters, each allowed to fail. -/

/-- Equality of `Except` values is decidable componentwise. -/
instance {ε α : Type} [DecidableEq ε] [DecidableEq α] : DecidableEq (Except ε α) := fun a b =>
  match a, b with
  | .error e, .error f =>
    if h : e = f then isTrue (by rw [h]) else isFalse (fun hh => by cases hh; exact h rfl)
  | .ok x, .ok y =>
    if h : x = y then isTrue (by rw [h]) else isFalse (fun hh => by cases hh; exact h rfl)
  | .error _, .ok _ => isFalse (fun hh => by cases hh)
  | .ok _, .error _ => isFalse (fun hh => by cases hh)

/-- One import span as returned by `es-module-lexer`: `s`/`e` delimit the
specifier and `d = -1` marks a static import (`d ≥ 0` is the start of a
dynamic import, `d = -2` an `import.meta`). -/
structure ImportSpan where
  s : Nat
  e : Nat
  d : Int
deriving DecidableEq, Repr

/-- The external services consumed by one run: the module-syntax extractor and
the minifier service's `transform` with `minify: true`. -/
structure Services where
  parse : String → Except String (List ImportSpan)
  transform : String → Except String String

/-- The plugin's `exclude` option is `string | string[]` in the source. -/
inductive ExcludeOpt where
  | str (s : String)
  | arr (l : List String)
deriving DecidableEq, Repr

/-- Embedding of `OptimizePluginOptions` (the two minify flags for CSS/HTML are
read nowhere in the source, so only their presence is recorded). -/
structure OptimizePluginOptions where
  exclude : Option ExcludeOpt := none
  minifyCSS : Bool := false
  minifyHTML : Bool := false
  minifyJS : Bool := false
deriving DecidableEq, Repr

/-- Model of JavaScript `code.substring(s, e)` (by character index). -/
def jsSubstring (code : String) (s e : Nat) : String :=
  String.mk ((code.toList.drop s).take (e - s))

/-- The effect of one `optimizeFile` call on one file: the paths it added to the
shared `modulesToPreload` set, the content it wrote back to the file (if any),
and the error it threw (if any).  Additions made before a later step throws are
kept, mirroring the in-place mutation of the shared set in the source. -/
structure FileOutcome where
  adds : List String
  write : Option String
  err : Option String
deriving DecidableEq, Repr

/-- The error wrapper of the `.js`/`.mjs` branch:
`throw new Error("Trouble optimizing JS: " + file + "\n" + err)`. -/
def wrapJS (file cause : String) : String :=
  "Trouble optimizing JS: " ++ file ++ "\n" ++ cause

/-- The additions the script branch makes to the shared set: every static
span (those with `d === -1`), resolved against the importing file's directory. -/
def staticAdds (file code : String) (imports : List ImportSpan) : List String :=
  (imports.filter (fun i => i.d = -1)).map
    (fun i => resolvePath (dirname file) (jsSubstring code i.s i.e))

/-- The `.js`/`.mjs` branch of `optimizeFile`: read, extract imports into the
shared set, minify and write back only when `minifyJS` is set; any failure —
of the read, the parse, the minify, or the write-back (all inside the
`try`) — is wrapped with `wrapJS` by the surrounding `catch`.  Additions made
to the shared set before a later step throws are kept, mirroring the in-place
mutation of the shared set in the source. -/
def optimizeScript (svc : Services) (minifyJS : Bool)
    (fsRead : String → Except String String)
    (fsWrite : String → String → Except String Unit) (file : String) : FileOutcome :=
  match fsRead file with
  | .error e => ⟨[], none, some (wrapJS file e)⟩
  | .ok code =>
    match svc.parse code with
    | .error e => ⟨[], none, some (wrapJS file e)⟩
    | .ok imports =>
      let adds := staticAdds file code imports
      if minifyJS then
        match svc.transform code with
        | .error e => ⟨adds, none, some (wrapJS file e)⟩
        | .ok minified =>
          match fsWrite file minified with
          | .error e => ⟨adds, none, some (wrapJS file e)⟩
          | .ok _ => ⟨adds, some minified, none⟩
      else ⟨adds, none, none⟩

/-- Modelled from the spec: `appendHTMLToHead` lives in `src/util.ts`, which is
not among the analysed sources.  The spec says "Insert the hint at the end of
the document's head section (before its closing tag), leaving all other markup
unchanged": the snippet is placed immediately before the first `</head>`
(appended at the end when the document has no closing head tag). -/
def insertBeforeClose (needle snippet : List Char) : List Char → List Char
  | [] => snippet
  | c :: t =>
    if leadsWith needle (c :: t) then snippet ++ c :: t
    else c :: insertBeforeClose needle snippet t

/-- Modelled from the spec: see `insertBeforeClose`. -/
def appendHTMLToHead (doc snippet : String) : String :=
  String.mk (insertBeforeClose "</head>".toList snippet.toList doc.toList)

/-- The preload hint the `.html` branch builds for one markup file. -/
def preloadScriptFor (file preloadModuleFile : String) : String :=
  "<link rel=\"modulepreload\" href=\"" ++
    relativeURL (dirname file) preloadModuleFile ++ "\" />"

/-- The `.html` branch of `optimizeFile`: read, inject the preload hint into
the head, write back.  There is no `try`/`catch` here, so a failure propagates
unwrapped. -/
def optimizeMarkup (fsRead : String → Except String String)
    (file preloadModuleFile : String) : FileOutcome :=
  match fsRead file with
  | .error e => ⟨[], none, some e⟩
  | .ok code => ⟨[], some (appendHTMLToHead code (preloadScriptFor file preloadModuleFile)), none⟩

/-- Embedding of `optimizeFile`: dispatch on the lowercased extension; `.css`
and unrecognized extensions are no-ops. -/
def optimizeFile (svc : Services) (options : OptimizePluginOptions)
    (fsRead : String → Except String String)
    (fsWrite : String → String → Except String Unit)
    (file preloadModuleFile : String) : FileOutcome :=
  let ext := baseExt file
  if ext = ".css" then ⟨[], none, none⟩
  else if ext = ".js" ∨ ext = ".mjs" then
    optimizeScript svc options.minifyJS fsRead fsWrite file
  else if ext = ".html" then optimizeMarkup fsRead file preloadModuleFile
  else ⟨[], none, none⟩

/-- Embedding of `writeModulePreloadFile`, returning the content written to
`dest`: the set's elements sorted with the `localeCompare` comparator, each
rendered relative to `dest`'s directory and joined into one import statement
per module.  The JavaScript `Array.prototype.sort` (a permutation of its input
that is sorted w.r.t. the comparator) is modelled by insertion sort over the
modelled collation order. -/
def writeModulePreloadFile (dest : String) (modulesToPreload : List String) : String :=
  let sortedModules := List.insertionSort localeLe modulesToPreload
  "import '" ++
    joinSep "';\nimport '" (sortedModules.map (fun url => relativeURL (dirname dest) url)) ++
    "';"

/-- Model of a JavaScript `Set<string>` as its insertion-order element list:
`add` appends exactly when the element is new. -/
def setInsert (s : List String) (x : String) : List String :=
  if x ∈ s then s else s ++ [x]

/-- The insertion-order element list of a `Set` fed the given additions in order. -/
def setOfList (l : List String) : List String := l.foldl setInsert []

/-- Embedding of the ignore-list construction
`[metaDir + "/*", ...((options && options.exclude) || [])]`.  Spreading a
JavaScript string iterates its characters, so a plain-string `exclude` is
splatted into one single-character pattern per character (the empty string is
falsy and contributes nothing). -/
def ignoreList (metaDir : String) (exclude : Option ExcludeOpt) : List String :=
  (metaDir ++ "/*") ::
    (match exclude with
     | none => []
     | some (.str s) => if s = "" then [] else s.toList.map (fun c => String.mk [c])
     | some (.arr l) => l)

/-- One entry of the build directory tree handed to the glob model: its
path relative to the build directory and whether it is a directory. -/
structure DirEntry where
  relPath : String
  isDir : Bool
deriving DecidableEq, Repr

/-- Embedding of `glob.sync('**/*', {cwd: buildDirectory, ignore})`: every tree
entry — file or directory — whose relative path matches `**/*` and matches no
ignore pattern, in tree order. -/
def scanFiles (tree : List DirEntry) (ignore : List String) : List String :=
  (tree.filter
      (fun e => globMatch "**/*" e.relPath && !(ignore.any (fun pat => globMatch pat e.relPath)))).map
    (fun e => e.relPath)

/-! ### Embedding of the `optimize` hook (the orchestrator)

The hook's body is
`startService; glob.sync; await Promise.all(allFiles.map(optimizeFile));
writeModulePreloadFile; esbuildService.stop()` with no `try`/`finally`.

Concurrency is modelled by giving every dispatched transform a completion time
(`dur`, an arbitrary schedule).  `Promise.all` fulfills at the latest
completion time when every task fulfills, and rejects at the earliest
rejection time — without waiting for still-pending tasks — otherwise. -/

/-- One dispatched transform: the file it works on, the time its promise
settles under the chosen schedule, and its outcome. -/
structure JsTask where
  file : String
  finishTime : Nat
  outcome : FileOutcome
deriving DecidableEq, Repr

/-- The rejected task `Promise.all` settles on: among the rejecting tasks, the
one with the earliest settle time (first dispatched on a tie); `none` when
every task fulfills. -/
def firstRejection (ts : List JsTask) : Option JsTask :=
  (ts.filter (fun t => t.outcome.err.isSome)).foldl
    (fun acc t =>
      match acc with
      | none => some t
      | some u => if t.finishTime < u.finishTime then some t else some u)
    none

/-- The latest completion time of the dispatched tasks. -/
def maxFinish (ts : List JsTask) : Nat :=
  ts.foldl (fun m t => max m t.finishTime) 0

/-- Everything observable about one run of the `optimize` hook. -/
structure RunTrace where
  allFiles : List String
  tasks : List JsTask
  settleTime : Nat
  modulesToPreload : List String
  emitted : Option String
  serviceStarted : Bool
  serviceStopped : Bool
  result : Except String Unit
deriving Repr

/-- Step 1 of the hook: `glob.sync('**/*', {cwd: buildDirectory, ignore: [...]})`. -/
def runAllFiles (options : OptimizePluginOptions) (metaDir : String)
    (tree : List DirEntry) : List String :=
  scanFiles tree (ignoreList metaDir options.exclude)

/-- The fixed aggregator destination
`path.join(buildDirectory, config.buildOptions.metaDir, 'module-preload.mjs')`. -/
def runPreloadFile (metaDir buildDirectory : String) : String :=
  joinPath (joinPath buildDirectory metaDir) "module-preload.mjs"

/-- Step 2 of the hook: one dispatched `optimizeFile` per enumerated file. -/
def runTasks (svc : Services) (options : OptimizePluginOptions)
    (metaDir buildDirectory : String) (fsRead : String → Except String String)
    (fsWrite : String → String → Except String Unit)
    (tree : List DirEntry) (dur : String → Nat) : List JsTask :=
  (runAllFiles options metaDir tree).map (fun f =>
    { file := joinPath buildDirectory f
      finishTime := dur f
      outcome := optimizeFile svc options fsRead fsWrite (joinPath buildDirectory f)
        (runPreloadFile metaDir buildDirectory) })

/-- The final content of the shared `modulesToPreload` set, in dispatch order
(the emitted artifact is proved independent of that order). -/
def runModules (svc : Services) (options : OptimizePluginOptions)
    (metaDir buildDirectory : String) (fsRead : String → Except String String)
    (fsWrite : String → String → Except String Unit)
    (tree : List DirEntry) (dur : String → Nat) : List String :=
  setOfList (((runTasks svc options metaDir buildDirectory fsRead fsWrite tree dur).map
    (fun u => u.outcome.adds)).flatten)

/-- Embedding of the `optimize` hook.  `tree` is the content of
`buildDirectory`, `dur` the schedule assigning each dispatched transform its
completion time.  On the success path the aggregator content is emitted and
the service stopped.  When `Promise.all` rejects, the hook rethrows at the
earliest rejection time: nothing is emitted and — there being no `finally` —
the service is not stopped. -/
def optimizeRun (svc : Services) (options : OptimizePluginOptions)
    (metaDir buildDirectory : String)
    (fsRead : String → Except String String)
    (fsWrite : String → String → Except String Unit)
    (tree : List DirEntry) (dur : String → Nat) : RunTrace :=
  match firstRejection (runTasks svc options metaDir buildDirectory fsRead fsWrite tree dur) with
  | some t =>
    { allFiles := runAllFiles options metaDir tree
      tasks := runTasks svc options metaDir buildDirectory fsRead fsWrite tree dur
      settleTime := t.finishTime
      modulesToPreload := runModules svc options metaDir buildDirectory fsRead fsWrite tree dur
      emitted := none, serviceStarted := true, serviceStopped := false
      result := .error (t.outcome.err.getD "") }
  | none =>
    { allFiles := runAllFiles options metaDir tree
      tasks := runTasks svc options metaDir buildDirectory fsRead fsWrite tree dur
      settleTime :=
        maxFinish (runTasks svc options metaDir buildDirectory fsRead fsWrite tree dur)
      modulesToPreload := runModules svc options metaDir buildDirectory fsRead fsWrite tree dur
      emitted := some (writeModulePreloadFile (runPreloadFile metaDir buildDirectory)
        (runModules svc options metaDir buildDirectory fsRead fsWrite tree dur))
      serviceStarted := true, serviceStopped := true
      result := .ok () }

/-! ### Concrete fixtures

A small build directory in the shape of the spec's §8 scenario, plus variants
exercising the failure paths.  These close the witnesses and counterexamples
below. -/

/-- Filesystem of the §8 scenario: an HTML page, a script with one static and
one dynamic import, and an import-free script. -/
def exFs : String → Except String String := fun p =>
  if p = "/out/index.html" then .ok "<html><head></head><body></body></html>"
  else if p = "/out/main.js" then .ok "import './util.js';import('./lazy.js');"
  else if p = "/out/util.js" then .ok ""
  else .error "ENOENT"

/-- The spans of `main.js`: the static specifier `./util.js` at 8–17 and the
dynamic import whose parenthesis opens at 26. -/
def exSvc : Services :=
  { parse := fun code =>
      if code = "import './util.js';import('./lazy.js');" then
        .ok [⟨8, 17, -1⟩, ⟨28, 38, 26⟩]
      else if code = "" then .ok []
      else .error "parse failed"
    transform := fun code => .ok code }

/-- The §8 build tree, with the metadata directory present as a directory. -/
def exTree : List DirEntry :=
  [⟨"index.html", false⟩, ⟨"main.js", false⟩, ⟨"util.js", false⟩, ⟨"meta", true⟩]

/-- Two scripts for the failure-path runs: reading `a.js` throws, `b.js` is fine. -/
def exFsFail : String → Except String String := fun p =>
  if p = "/out/b.js" then .ok "" else .error "disk failure"

/-- A schedule under which the failing transform settles first. -/
def exDur : String → Nat := fun f => if f = "a.js" then 1 else 5

/-- Tree for the failure-path runs. -/
def exTreeFail : List DirEntry := [⟨"a.js", false⟩, ⟨"b.js", false⟩]

/-- Tree with a directory, a top-level `.map` file, and a nested `.map` file,
for the `exclude` option's behaviour. -/
def exTreeMap : List DirEntry :=
  [⟨"d", true⟩, ⟨"keep.js", false⟩, ⟨"x.map", false⟩, ⟨"d/x.map", false⟩]

/-- Tree with directories and a file nested two levels below the metadata
directory. -/
def exTreeDeep : List DirEntry :=
  [⟨"sub", true⟩, ⟨"sub/x.js", false⟩, ⟨"meta", true⟩, ⟨"meta/a.js", false⟩,
   ⟨"meta/deep", true⟩, ⟨"meta/deep/x.js", false⟩]

/-- A filesystem on which every read throws `readerr`. -/
def exFsDown : String → Except String String := fun _ => .error "readerr"

/-- A write oracle on which every write succeeds. -/
def exFsWrite : String → String → Except String Unit := fun _ _ => .ok ()

/-- A write oracle on which every write throws `write failure`. -/
def exFsWriteFail : String → String → Except String Unit := fun _ _ => .error "write failure"

/-! ## Helper lemmas -/

/-! #### The modelled collation is a linear order -/

theorem lexCompare_eq_iff : ∀ (a b : List Nat), lexCompare a b = .eq ↔ a = b
  | [], [] => by simp [lexCompare]
  | [], _ :: _ => by simp [lexCompare]
  | _ :: _, [] => by simp [lexCompare]
  | a :: as, b :: bs => by
    simp only [lexCompare, List.cons.injEq]
    split_ifs with h1 h2
    · constructor
      · intro h; exact absurd h (by decide)
      · intro h; omega
    · constructor
      · intro h; exact absurd h (by decide)
      · intro h; omega
    · have hab : a = b := by omega
      rw [lexCompare_eq_iff as bs]
      simp [hab]

theorem lexCompare_swap : ∀ (a b : List Nat), lexCompare b a = (lexCompare a b).swap
  | [], [] => rfl
  | [], _ :: _ => rfl
  | _ :: _, [] => rfl
  | a :: as, b :: bs => by
    simp only [lexCompare]
    split_ifs <;> first | rfl | omega | exact lexCompare_swap as bs

theorem lexCompare_le_trans : ∀ (a b c : List Nat),
    lexCompare a b ≠ .gt → lexCompare b c ≠ .gt → lexCompare a c ≠ .gt
  | [], _, [] => fun _ _ => by simp [lexCompare]
  | [], _, _ :: _ => fun _ _ => by simp [lexCompare]
  | _ :: _, [], _ => fun h1 _ => absurd rfl h1
  | _ :: _, _ :: _, [] => fun _ h2 => absurd rfl h2
  | a :: as, b :: bs, c :: cs => fun h1 h2 => by
    simp only [lexCompare] at h1 h2 ⊢
    split_ifs at h1 h2 ⊢ <;>
      first
        | exact (by decide)
        | exact absurd rfl h1
        | exact absurd rfl h2
        | exact lexCompare_le_trans as bs cs h1 h2
        | (exfalso; omega)

theorem localeCompareM_swap (a b : String) : localeCompareM b a = (localeCompareM a b).swap := by
  unfold localeCompareM
  rw [lexCompare_swap (a.toList.map collPrimary), lexCompare_swap (a.toList.map collCase)]
  cases lexCompare (a.toList.map collPrimary) (b.toList.map collPrimary) <;> simp [Ordering.swap]

theorem localeLe_total (a b : String) : localeLe a b ∨ localeLe b a := by
  unfold localeLe
  rw [localeCompareM_swap a b]
  cases localeCompareM a b <;> decide

theorem localeLe_trans {a b c : String} (h1 : localeLe a b) (h2 : localeLe b c) :
    localeLe a c := by
  unfold localeLe localeCompareM at h1 h2 ⊢
  have hab : lexCompare (a.toList.map collPrimary) (b.toList.map collPrimary) ≠ .gt := by
    intro hgt; rw [hgt] at h1; exact h1 rfl
  have hbc : lexCompare (b.toList.map collPrimary) (c.toList.map collPrimary) ≠ .gt := by
    intro hgt; rw [hgt] at h2; exact h2 rfl
  have hac := lexCompare_le_trans _ _ _ hab hbc
  cases hPac : lexCompare (a.toList.map collPrimary) (c.toList.map collPrimary) with
  | lt => simp
  | gt => exact absurd hPac hac
  | eq =>
    have hPeq : a.toList.map collPrimary = c.toList.map collPrimary :=
      (lexCompare_eq_iff _ _).mp hPac
    have hba : lexCompare (b.toList.map collPrimary) (a.toList.map collPrimary) ≠ .gt := by
      rw [← hPeq] at hbc; exact hbc
    have habeq : lexCompare (a.toList.map collPrimary) (b.toList.map collPrimary) = .eq := by
      rw [lexCompare_swap] at hba
      cases h : lexCompare (a.toList.map collPrimary) (b.toList.map collPrimary)
      · rw [h] at hba; exact absurd rfl hba
      · rfl
      · exact absurd h hab
    have hbceq : lexCompare (b.toList.map collPrimary) (c.toList.map collPrimary) = .eq := by
      rw [← hPeq, lexCompare_swap]
      rw [habeq]
      rfl
    rw [habeq] at h1
    rw [hbceq] at h2
    exact lexCompare_le_trans _ _ _ h1 h2

/-- Characters with the same primary and case weights are equal. -/
theorem coll_char_inj {c d : Char} (hp : collPrimary c = collPrimary d)
    (hc : collCase c = collCase d) : c = d := by
  have hcb : c.toNat < 4294967296 := c.val.toNat_lt
  have hdb : d.toNat < 4294967296 := d.val.toNat_lt
  have hv : c.toNat = d.toNat := by
    unfold collPrimary at hp
    unfold collCase at hc
    split_ifs at hp hc <;> omega
  exact Char.ext (UInt32.ext hv)

theorem coll_lists_inj : ∀ (xs ys : List Char),
    xs.map collPrimary = ys.map collPrimary → xs.map collCase = ys.map collCase → xs = ys
  | [], [] => by simp
  | [], _ :: _ => by simp
  | _ :: _, [] => by simp
  | x :: xs, y :: ys => by
    intro hp hc
    simp only [List.map_cons, List.cons.injEq] at hp hc ⊢
    exact ⟨coll_char_inj hp.1 hc.1, coll_lists_inj xs ys hp.2 hc.2⟩

theorem localeLe_antisymm {a b : String} (h1 : localeLe a b) (h2 : localeLe b a) : a = b := by
  unfold localeLe at h1 h2
  have heq : localeCompareM a b = .eq := by
    have hswap := localeCompareM_swap a b
    cases h : localeCompareM a b
    · rw [h] at hswap; exact absurd hswap (by simpa using h2)
    · rfl
    · exact absurd h h1
  unfold localeCompareM at heq
  have hP : lexCompare (a.toList.map collPrimary) (b.toList.map collPrimary) = .eq := by
    cases h : lexCompare (a.toList.map collPrimary) (b.toList.map collPrimary)
    · rw [h] at heq; exact absurd heq (by simp)
    · rfl
    · rw [h] at heq; exact absurd heq (by simp)
  rw [hP] at heq
  have hchars := coll_lists_inj a.toList b.toList
    ((lexCompare_eq_iff _ _).mp hP) ((lexCompare_eq_iff _ _).mp heq)
  cases a; cases b
  exact congrArg String.mk (by simpa [String.toList] using hchars)

instance : IsTotal String localeLe := ⟨localeLe_total⟩

instance : IsTrans String localeLe := ⟨fun _ _ _ => localeLe_trans⟩

instance : IsAntisymm String localeLe := ⟨fun _ _ => localeLe_antisymm⟩

/-! #### Glob and scan lemmas -/

theorem splitSlashC_ne_nil : ∀ (l : List Char), splitSlashC l ≠ []
  | [] => by simp [splitSlashC]
  | c :: t => by
    rw [show splitSlashC (c :: t)
        = if c = '/' then [] :: splitSlashC t
          else (match splitSlashC t with
                | [] => [[c]]
                | h :: rt => (c :: h) :: rt) from rfl]
    split_ifs
    · simp
    · cases splitSlashC t <;> simp

theorem mem_nil_suffixes : ∀ (l : List α), [] ∈ suffixes l
  | [] => by simp [suffixes]
  | a :: t => by
    rw [show suffixes (a :: t) = (a :: t) :: suffixes t from rfl]
    exact List.mem_cons_of_mem _ (mem_nil_suffixes t)

theorem exists_singleton_suffix : ∀ (s : α) (ss : List α), ∃ x, [x] ∈ suffixes (s :: ss)
  | s, [] => ⟨s, by simp [suffixes]⟩
  | s, b :: bs => by
    obtain ⟨x, hx⟩ := exists_singleton_suffix b bs
    refine ⟨x, ?_⟩
    rw [show suffixes (s :: b :: bs) = (s :: b :: bs) :: suffixes (b :: bs) from rfl]
    exact List.mem_cons_of_mem _ hx

theorem segChars_star (s : List Char) : segChars ['*'] s = true := by
  rw [show segChars ['*'] s
      = if ('*' : Char) = '*' then (suffixes s).any (fun x => segChars [] x)
        else (match s with
              | [] => false
              | c :: ct => ('*' : Char) = c && segChars [] ct) from rfl]
  rw [if_pos rfl, List.any_eq_true]
  exact ⟨[], mem_nil_suffixes s, rfl⟩

theorem globSegs_all (s : List Char) (ss : List (List Char)) :
    globSegs [['*', '*'], ['*']] (s :: ss) = true := by
  rw [show globSegs [['*', '*'], ['*']] (s :: ss)
      = (suffixes (s :: ss)).any (fun x => globSegs [['*']] x) from rfl,
    List.any_eq_true]
  obtain ⟨x, hx⟩ := exists_singleton_suffix s ss
  refine ⟨[x], hx, ?_⟩
  rw [show globSegs [['*']] [x] = (segChars ['*'] x && globSegs [] []) from rfl]
  simp [segChars_star, globSegs]

/-- The scan's base pattern `**/*` matches every path. -/
theorem globMatch_all_paths (p : String) : globMatch "**/*" p = true := by
  unfold globMatch
  rw [show splitSlashC "**/*".toList = [['*', '*'], ['*']] from rfl]
  cases hs : splitSlashC p.toList with
  | nil => exact absurd hs (splitSlashC_ne_nil _)
  | cons s ss => exact globSegs_all s ss

/-- Membership in the scan result: exactly the tree entries (files and
directories alike) whose path matches no ignore pattern. -/
theorem mem_scanFiles (tree : List DirEntry) (ignore : List String) (p : String) :
    p ∈ scanFiles tree ignore ↔
      (∃ e ∈ tree, e.relPath = p) ∧ ∀ pat ∈ ignore, globMatch pat p = false := by
  simp only [scanFiles, List.mem_map, List.mem_filter, Bool.and_eq_true,
    globMatch_all_paths, true_and, Bool.not_eq_true']
  constructor
  · rintro ⟨e, ⟨he, hf⟩, rfl⟩
    rw [List.any_eq_false] at hf
    exact ⟨⟨e, he, rfl⟩, fun pat hpat => by simpa using hf pat hpat⟩
  · rintro ⟨⟨e, he, rfl⟩, hno⟩
    refine ⟨e, ⟨he, ?_⟩, rfl⟩
    rw [List.any_eq_false]
    intro pat hpat
    simpa using hno pat hpat

theorem splitSlashC_append : ∀ (l r : List Char), occursIn ['/'] l = false →
    splitSlashC (l ++ '/' :: r) = l :: splitSlashC r
  | [], _ => fun _ => rfl
  | c :: t, r => fun h => by
    simp only [occursIn, leadsWith, Bool.and_true, Bool.or_eq_false_iff,
      decide_eq_false_iff_not] at h
    rw [List.cons_append]
    rw [show splitSlashC (c :: (t ++ '/' :: r))
        = if c = '/' then [] :: splitSlashC (t ++ '/' :: r)
          else (match splitSlashC (t ++ '/' :: r) with
                | [] => [[c]]
                | h' :: rt => (c :: h') :: rt) from rfl]
    rw [if_neg (fun hcc => h.1 hcc.symm)]
    rw [splitSlashC_append t r h.2]

/-- A pattern `m/*` with a literal first segment matches only two-segment
paths: anything nested deeper (or the bare `m` itself) escapes it. -/
theorem globSegs_lit_star_len (m : List Char) (hm : m ≠ ['*', '*']) :
    ∀ segs : List (List Char), segs.length ≠ 2 → globSegs [m, ['*']] segs = false
  | [], _ => by
    rw [show globSegs [m, ['*']] []
        = if m = ['*', '*'] then (suffixes ([] : List (List Char))).any
            (fun x => globSegs [['*']] x) else false from rfl]
    rw [if_neg hm]
  | [s], _ => by
    rw [show globSegs [m, ['*']] [s]
        = if m = ['*', '*'] then (suffixes [s]).any (fun x => globSegs [['*']] x)
          else segChars m s && globSegs [['*']] [] from rfl]
    rw [if_neg hm]
    simp [globSegs]
  | s :: x :: y :: rest, _ => by
    rw [show globSegs [m, ['*']] (s :: x :: y :: rest)
        = if m = ['*', '*'] then (suffixes (s :: x :: y :: rest)).any
            (fun w => globSegs [['*']] w)
          else segChars m s && globSegs [['*']] (x :: y :: rest) from rfl]
    rw [if_neg hm]
    rw [show globSegs [['*']] (x :: y :: rest)
        = if (['*'] : List Char) = ['*', '*'] then (suffixes (x :: y :: rest)).any
            (fun w => globSegs [] w)
          else segChars ['*'] x && globSegs [] (y :: rest) from rfl]
    simp [globSegs]
  | [_, _], h => absurd rfl h

/-! #### Completion-time lemmas -/

theorem foldl_max_bounds : ∀ (ts : List JsTask) (a : Nat),
    a ≤ ts.foldl (fun m t => max m t.finishTime) a ∧
      ∀ t ∈ ts, t.finishTime ≤ ts.foldl (fun m t => max m t.finishTime) a
  | [], a => ⟨le_refl a, by simp⟩
  | u :: us, a => by
    constructor
    · exact le_trans (le_max_left a u.finishTime) (foldl_max_bounds us _).1
    · intro t ht
      rcases List.mem_cons.mp ht with rfl | ht
      · exact le_trans (le_max_right a t.finishTime) (foldl_max_bounds us _).1
      · exact (foldl_max_bounds us _).2 t ht

theorem le_maxFinish (ts : List JsTask) : ∀ t ∈ ts, t.finishTime ≤ maxFinish ts :=
  (foldl_max_bounds ts 0).2

/-! #### Head-insertion lemma -/

/-- `insertBeforeClose` splits the document at one position — the first
occurrence of the closing tag, or the very end when there is none — and puts
the snippet exactly there, leaving everything else unchanged. -/
theorem insertBeforeClose_split (needle snippet : List Char) : ∀ (doc : List Char),
    ∃ pre post, doc = pre ++ post ∧
      insertBeforeClose needle snippet doc = pre ++ snippet ++ post ∧
      (leadsWith needle post = true ∨ post = [])
  | [] => ⟨[], [], by simp [insertBeforeClose]⟩
  | c :: t => by
    cases h : leadsWith needle (c :: t) with
    | true =>
      refine ⟨[], c :: t, by simp, ?_, Or.inl h⟩
      rw [show insertBeforeClose needle snippet (c :: t)
          = if leadsWith needle (c :: t) then snippet ++ c :: t
            else c :: insertBeforeClose needle snippet t from rfl]
      simp [h]
    | false =>
      obtain ⟨pre, post, h1, h2, h3⟩ := insertBeforeClose_split needle snippet t
      refine ⟨c :: pre, post, by simp [h1], ?_, h3⟩
      rw [show insertBeforeClose needle snippet (c :: t)
          = if leadsWith needle (c :: t) then snippet ++ c :: t
            else c :: insertBeforeClose needle snippet t from rfl]
      simp [h, h2]

/-! ## Claims -/

/-- C4: the claim says an empty ModulePathSet yields a `module-preload.mjs`
with no import lines.  The emitter does still produce the file, but its
content for the empty set is the degenerate statement `import '';` — one
statement with an empty specifier — because the template wraps the empty
join in the statement frame unconditionally. -/
theorem writeModulePreloadFile_empty_has_import_line :
    writeModulePreloadFile "/out/meta/module-preload.mjs" [] = "import '';" := rfl

/-- C8: a sequence-valued `exclude` is merged into the ignore list as-is, but a
single-string `exclude` is spread character-by-character (JavaScript string
spread), not merged as one pattern: `"*.map"` becomes the five patterns `*`,
`.`, `m`, `a`, `p`, so the scan drops every top-level entry (pattern `*`) and
keeps the nested `.map` files the option meant to exclude. -/
theorem ignoreList_string_not_merged_as_is :
    ignoreList "meta" (some (.arr ["*.map"])) = ["meta/*", "*.map"] ∧
    ignoreList "meta" (some (.str "*.map")) = ["meta/*", "*", ".", "m", "a", "p"] ∧
    scanFiles exTreeMap (ignoreList "meta" (some (.str "*.map"))) = ["d/x.map"] ∧
    scanFiles exTreeMap (ignoreList "meta" (some (.arr ["*.map"])))
      = ["d", "keep.js", "d/x.map"] := by
  decide

/-- C3 (counterexample): the emitter sorts with `localeCompare`, not by
byte/code-point order.  On the set `{/out/B.js, /out/a.js}` the emitted lines
put `a.js` before `B.js`, while code-point order has `"/out/B.js" < "/out/a.js"`;
the lines are therefore not in non-decreasing code-point order of the
pre-relativization absolute paths. -/
theorem emitted_order_not_byte_lexicographic :
    List.insertionSort localeLe ["/out/B.js", "/out/a.js"] = ["/out/a.js", "/out/B.js"] ∧
    ("/out/B.js".toList < "/out/a.js".toList) ∧
    ¬ ("/out/a.js".toList < "/out/B.js".toList) ∧
    writeModulePreloadFile "/out/meta/module-preload.mjs" ["/out/B.js", "/out/a.js"]
      = "import '../a.js';\nimport '../B.js';" := by
  decide

/-- C3 (amended): the Aggregator Emitter writes the module paths sorted by the
(default-locale) `localeCompare` collation — case-insensitive primary weights
with a lowercase-first tiebreak — and the emitted content is a function of the
set alone: any two duplicate-free accumulation orders with the same elements
produce identical file content. -/
theorem writeModulePreloadFile_sorted_deterministic (dest : String)
    (l₁ l₂ : List String) (h₁ : l₁.Nodup) (h₂ : l₂.Nodup)
    (hmem : ∀ x, x ∈ l₁ ↔ x ∈ l₂) :
    List.Sorted localeLe (List.insertionSort localeLe l₁) ∧
    writeModulePreloadFile dest l₁ = writeModulePreloadFile dest l₂ := by
  have hs₁ := List.sorted_insertionSort localeLe l₁
  have hs₂ := List.sorted_insertionSort localeLe l₂
  have hp : l₁.Perm l₂ := (List.perm_ext_iff_of_nodup h₁ h₂).mpr hmem
  have hperm : (List.insertionSort localeLe l₁).Perm (List.insertionSort localeLe l₂) :=
    ((List.perm_insertionSort localeLe l₁).trans hp).trans
      (List.perm_insertionSort localeLe l₂).symm
  have heq := List.eq_of_perm_of_sorted hperm hs₁ hs₂
  exact ⟨hs₁, by unfold writeModulePreloadFile; rw [heq]⟩

theorem writeModulePreloadFile_sorted_deterministic_witness :
    List.Sorted localeLe (List.insertionSort localeLe ["/x/b.js", "/x/a.js"]) ∧
    writeModulePreloadFile "/x/m/p.mjs" ["/x/b.js", "/x/a.js"]
      = writeModulePreloadFile "/x/m/p.mjs" ["/x/a.js", "/x/b.js"] :=
  writeModulePreloadFile_sorted_deterministic "/x/m/p.mjs" ["/x/b.js", "/x/a.js"]
    ["/x/a.js", "/x/b.js"] (by decide) (by decide)
    (fun x => by simp [List.mem_cons, or_comm])

/-- C7 (counterexample): the scan is not restricted to regular files outside
the metadata directory: with the default ignore list it enumerates the
directories `sub`, `meta` and the file `meta/deep/x.js` nested two levels
below the metadata directory (the mandatory pattern `meta/*` only covers
direct children), and all of these are dispatched to transforms. -/
theorem scan_enumerates_dirs_and_deep_meta :
    scanFiles exTreeDeep (ignoreList "meta" none)
      = ["sub", "sub/x.js", "meta", "meta/deep/x.js"] ∧
    (exTreeDeep.filter (fun e => e.isDir)).map (fun e => e.relPath)
      = ["sub", "meta", "meta/deep"] := by
  decide

/-- C7 (amended): the scan enumerates exactly the tree entries — regular files
and directories alike — whose relative path matches neither the mandatory
pattern `metaDir/*` nor any pattern of the `exclude` sequence; the mandatory
pattern only reaches two-segment paths, i.e. direct children of the metadata
directory, so entries nested deeper inside it are enumerated. -/
theorem scanFiles_characterization (tree : List DirEntry) (metaDir : String)
    (excl : List String) (p : String)
    (hslash : occursIn ['/'] metaDir.toList = false)
    (hstar : metaDir.toList ≠ ['*', '*']) :
    (p ∈ scanFiles tree (ignoreList metaDir (some (.arr excl))) ↔
      (∃ e ∈ tree, e.relPath = p) ∧ globMatch (metaDir ++ "/*") p = false ∧
        ∀ pat ∈ excl, globMatch pat p = false) ∧
    ((splitSlashC p.toList).length ≠ 2 → globMatch (metaDir ++ "/*") p = false) := by
  constructor
  · rw [mem_scanFiles]
    rw [show ignoreList metaDir (some (.arr excl)) = (metaDir ++ "/*") :: excl from rfl]
    simp only [List.mem_cons, forall_eq_or_imp]
  · intro hdepth
    unfold globMatch
    have hsplit : splitSlashC (metaDir ++ "/*").toList = [metaDir.toList, ['*']] := by
      rw [show (metaDir ++ "/*").toList = metaDir.toList ++ '/' :: ['*'] from rfl]
      rw [splitSlashC_append _ _ hslash]
      rfl
    rw [hsplit]
    exact globSegs_lit_star_len metaDir.toList hstar _ hdepth

theorem scanFiles_characterization_witness :
    (("meta/deep/x.js" ∈ scanFiles exTreeDeep (ignoreList "meta" (some (.arr [])))) ↔
      (∃ e ∈ exTreeDeep, e.relPath = "meta/deep/x.js") ∧
        globMatch ("meta" ++ "/*") "meta/deep/x.js" = false ∧
        ∀ pat ∈ ([] : List String), globMatch pat "meta/deep/x.js" = false) ∧
    ((splitSlashC "meta/deep/x.js".toList).length ≠ 2 →
      globMatch ("meta" ++ "/*") "meta/deep/x.js" = false) :=
  scanFiles_characterization exTreeDeep "meta" [] "meta/deep/x.js" (by decide) (by decide)

/-- C5: for every processed script (readable, parseable), the additions to the
shared ModulePathSet are exactly the static import spans' specifiers resolved
against the importing file's directory; dynamic spans contribute nothing, and
a script with only dynamic imports adds no entries. -/
theorem optimizeFile_static_imports (svc : Services) (options : OptimizePluginOptions)
    (fsRead : String → Except String String)
    (fsWrite : String → String → Except String Unit) (file preload code : String)
    (spans : List ImportSpan)
    (hext : baseExt file = ".js" ∨ baseExt file = ".mjs")
    (hread : fsRead file = .ok code)
    (hparse : svc.parse code = .ok spans) :
    (optimizeFile svc options fsRead fsWrite file preload).adds
        = (spans.filter (fun i => i.d = -1)).map
            (fun i => resolvePath (dirname file) (jsSubstring code i.s i.e)) ∧
    ((∀ sp ∈ spans, sp.d ≠ -1) →
      (optimizeFile svc options fsRead fsWrite file preload).adds = []) := by
  have hnecss : baseExt file ≠ ".css" := by rcases hext with h | h <;> rw [h] <;> decide
  have hadds : (optimizeFile svc options fsRead fsWrite file preload).adds
      = staticAdds file code spans := by
    unfold optimizeFile
    rw [if_neg hnecss, if_pos hext]
    unfold optimizeScript
    cases hm : options.minifyJS with
    | false => simp [hread, hparse, hm]
    | true =>
      cases ht : svc.transform code with
      | error e => simp [hread, hparse, hm, ht]
      | ok minified =>
        cases hw : fsWrite file minified <;> simp [hread, hparse, hm, ht, hw]
  refine ⟨hadds, fun hdyn => ?_⟩
  rw [hadds]
  unfold staticAdds
  rw [List.filter_eq_nil_iff.mpr (by simpa using hdyn)]
  rfl

theorem optimizeFile_static_imports_witness :
    (optimizeFile exSvc {} exFs exFsWrite "/out/main.js" "/out/meta/module-preload.mjs").adds
        = (([⟨8, 17, -1⟩, ⟨28, 38, 26⟩] : List ImportSpan).filter (fun i => i.d = -1)).map
            (fun i => resolvePath (dirname "/out/main.js")
              (jsSubstring "import './util.js';import('./lazy.js');" i.s i.e)) ∧
    ((∀ sp ∈ ([⟨8, 17, -1⟩, ⟨28, 38, 26⟩] : List ImportSpan), sp.d ≠ -1) →
      (optimizeFile exSvc {} exFs exFsWrite "/out/main.js"
          "/out/meta/module-preload.mjs").adds = []) :=
  optimizeFile_static_imports exSvc {} exFs exFsWrite "/out/main.js"
    "/out/meta/module-preload.mjs"
    "import './util.js';import('./lazy.js');" [⟨8, 17, -1⟩, ⟨28, 38, 26⟩]
    (Or.inl (by decide)) (by decide) (by decide)

/-- C6 (counterexample): the claim's "for script and markup categories alike"
fails — the markup branch has no `try`/`catch`, so a failing read of an
`.html` file propagates the raw error, with no context naming the file: the
message does not even contain the failing path. -/
theorem optimizeFile_markup_failure_unwrapped :
    (optimizeFile exSvc {} exFsDown exFsWrite "/out/index.html"
        "/out/meta/module-preload.mjs").err = some "readerr" ∧
    occursIn "/out/index.html".toList "readerr".toList = false := by
  decide

/-- C6 (amended): script-category failures — of the read, the parse, the
minify, or the write-back, all inside the branch's `try`/`catch` — are wrapped
with context identifying the failing file and the underlying cause —
`Trouble optimizing JS: <file>\n<cause>` — and propagated, never retried or
skipped; markup-category failures propagate unwrapped. -/
theorem optimizeFile_script_failure_wrapped (svc : Services)
    (options : OptimizePluginOptions) (fsRead : String → Except String String)
    (fsWrite : String → String → Except String Unit)
    (file preload m : String)
    (hext : baseExt file = ".js" ∨ baseExt file = ".mjs")
    (herr : (optimizeFile svc options fsRead fsWrite file preload).err = some m) :
    ∃ cause, m = "Trouble optimizing JS: " ++ file ++ "\n" ++ cause := by
  have hnecss : baseExt file ≠ ".css" := by rcases hext with h | h <;> rw [h] <;> decide
  unfold optimizeFile at herr
  rw [if_neg hnecss, if_pos hext] at herr
  unfold optimizeScript at herr
  cases hr : fsRead file with
  | error e =>
    simp only [hr] at herr
    exact ⟨e, by simpa [wrapJS] using herr.symm⟩
  | ok code =>
    cases hp : svc.parse code with
    | error e =>
      simp only [hr, hp] at herr
      exact ⟨e, by simpa [wrapJS] using herr.symm⟩
    | ok imports =>
      cases hm : options.minifyJS with
      | false => simp [hr, hp, hm] at herr
      | true =>
        cases ht : svc.transform code with
        | error e =>
          simp only [hr, hp, hm, ht, if_true] at herr
          exact ⟨e, by simpa [wrapJS] using herr.symm⟩
        | ok minified =>
          cases hw : fsWrite file minified with
          | error e =>
            simp only [hr, hp, hm, ht, hw, if_true] at herr
            exact ⟨e, by simpa [wrapJS] using herr.symm⟩
          | ok u => simp [hr, hp, hm, ht, hw] at herr

theorem optimizeFile_script_failure_wrapped_witness :
    (∃ cause, "Trouble optimizing JS: /out/a.js\ndisk failure"
      = "Trouble optimizing JS: " ++ "/out/a.js" ++ "\n" ++ cause) ∧
    (∃ cause, "Trouble optimizing JS: /out/util.js\nwrite failure"
      = "Trouble optimizing JS: " ++ "/out/util.js" ++ "\n" ++ cause) :=
  ⟨optimizeFile_script_failure_wrapped exSvc {} exFsFail exFsWrite "/out/a.js"
      "/out/meta/module-preload.mjs" "Trouble optimizing JS: /out/a.js\ndisk failure"
      (Or.inl (by decide)) (by decide),
    optimizeFile_script_failure_wrapped exSvc { minifyJS := true } exFs exFsWriteFail
      "/out/util.js" "/out/meta/module-preload.mjs"
      "Trouble optimizing JS: /out/util.js\nwrite failure"
      (Or.inl (by decide)) (by decide)⟩

/-- C9: with `minifyJS` unset the script branch never writes the file back —
on any filesystem outcome — while import extraction still runs and contributes
the static-import resolutions to the shared set. -/
theorem optimizeFile_minify_off_frame (svc : Services)
    (options : OptimizePluginOptions) (fsRead : String → Except String String)
    (fsWrite : String → String → Except String Unit)
    (file preload code : String) (spans : List ImportSpan)
    (hext : baseExt file = ".js" ∨ baseExt file = ".mjs")
    (hmin : options.minifyJS = false) :
    (optimizeFile svc options fsRead fsWrite file preload).write = none ∧
    (fsRead file = .ok code → svc.parse code = .ok spans →
      (optimizeFile svc options fsRead fsWrite file preload).adds
        = (spans.filter (fun i => i.d = -1)).map
            (fun i => resolvePath (dirname file) (jsSubstring code i.s i.e))) := by
  have hnecss : baseExt file ≠ ".css" := by rcases hext with h | h <;> rw [h] <;> decide
  unfold optimizeFile
  rw [if_neg hnecss, if_pos hext]
  unfold optimizeScript
  constructor
  · cases hr : fsRead file with
    | error e => rfl
    | ok code' =>
      cases hp : svc.parse code' with
      | error e => simp [hr, hp]
      | ok imports => simp [hr, hp, hmin]
  · intro hread hparse
    simp [hread, hparse, hmin, staticAdds]

theorem optimizeFile_minify_off_frame_witness :
    (optimizeFile exSvc {} exFs exFsWrite "/out/main.js"
        "/out/meta/module-preload.mjs").write = none ∧
    (exFs "/out/main.js" = .ok "import './util.js';import('./lazy.js');" →
      exSvc.parse "import './util.js';import('./lazy.js');"
          = .ok [⟨8, 17, -1⟩, ⟨28, 38, 26⟩] →
      (optimizeFile exSvc {} exFs exFsWrite "/out/main.js"
          "/out/meta/module-preload.mjs").adds
        = (([⟨8, 17, -1⟩, ⟨28, 38, 26⟩] : List ImportSpan).filter (fun i => i.d = -1)).map
            (fun i => resolvePath (dirname "/out/main.js")
              (jsSubstring "import './util.js';import('./lazy.js');" i.s i.e))) :=
  optimizeFile_minify_off_frame exSvc {} exFs exFsWrite "/out/main.js"
    "/out/meta/module-preload.mjs"
    "import './util.js';import('./lazy.js');" [⟨8, 17, -1⟩, ⟨28, 38, 26⟩]
    (Or.inl (by decide)) (by decide)

/-- C10: every readable `.html` file is rewritten unconditionally — whatever
the module set holds, including nothing at all — with the preload link for the
aggregator file inserted at exactly one position, before the head's closing
tag (or at the document's end when no closing tag exists), and every other
character unchanged; the markup branch never errors on a successful read and
adds nothing to the set. -/
theorem optimizeFile_html_always_injects (svc : Services)
    (options : OptimizePluginOptions) (fsRead : String → Except String String)
    (fsWrite : String → String → Except String Unit)
    (file preload code : String)
    (hext : baseExt file = ".html")
    (hread : fsRead file = .ok code) :
    (optimizeFile svc options fsRead fsWrite file preload).err = none ∧
    (optimizeFile svc options fsRead fsWrite file preload).adds = [] ∧
    ∃ pre post, code.toList = pre ++ post ∧
      (optimizeFile svc options fsRead fsWrite file preload).write
        = some (String.mk (pre ++ (preloadScriptFor file preload).toList ++ post)) ∧
      (leadsWith "</head>".toList post = true ∨ post = []) := by
  have h1 : baseExt file ≠ ".css" := by rw [hext]; decide
  have h2 : ¬ (baseExt file = ".js" ∨ baseExt file = ".mjs") := by rw [hext]; decide
  unfold optimizeFile
  rw [if_neg h1, if_neg h2, if_pos hext]
  unfold optimizeMarkup
  rw [hread]
  refine ⟨rfl, rfl, ?_⟩
  obtain ⟨pre, post, hsplit, hins, hpos⟩ :=
    insertBeforeClose_split "</head>".toList (preloadScriptFor file preload).toList code.toList
  refine ⟨pre, post, hsplit, ?_, hpos⟩
  simp only [appendHTMLToHead]
  rw [hins]

theorem optimizeFile_html_always_injects_witness :
    (optimizeFile exSvc {} exFs exFsWrite "/out/index.html"
        "/out/meta/module-preload.mjs").err = none ∧
    (optimizeFile exSvc {} exFs exFsWrite "/out/index.html"
        "/out/meta/module-preload.mjs").adds = [] ∧
    ∃ pre post, "<html><head></head><body></body></html>".toList = pre ++ post ∧
      (optimizeFile exSvc {} exFs exFsWrite "/out/index.html"
          "/out/meta/module-preload.mjs").write
        = some (String.mk (pre ++
            (preloadScriptFor "/out/index.html" "/out/meta/module-preload.mjs").toList ++ post)) ∧
      (leadsWith "</head>".toList post = true ∨ post = []) :=
  optimizeFile_html_always_injects exSvc {} exFs exFsWrite "/out/index.html"
    "/out/meta/module-preload.mjs" "<html><head></head><body></body></html>"
    (by decide) (by decide)

/-- C1 (counterexample): when a transform fails, the hook rethrows with the
minifier service still running — the body has no `try`/`finally`, so
`esbuildService.stop()` on the line after the emitter is never reached on the
failure path. -/
theorem service_not_stopped_on_failure :
    (optimizeRun exSvc {} "meta" "/out" exFsFail exFsWrite exTreeFail exDur).result
        = .error "Trouble optimizing JS: /out/a.js\ndisk failure" ∧
    (optimizeRun exSvc {} "meta" "/out" exFsFail exFsWrite exTreeFail
        exDur).serviceStopped = false := by
  decide

/-- C1 (amended): the Minifier Service is started before any transform is
dispatched on every run, and it is stopped exactly on the successful exit
path — after the emitter has run; on the path where a transform fails the
pass throws without stopping it. -/
theorem optimizeRun_service_lifecycle (svc : Services) (options : OptimizePluginOptions)
    (metaDir buildDirectory : String) (fsRead : String → Except String String)
    (fsWrite : String → String → Except String Unit)
    (tree : List DirEntry) (dur : String → Nat) :
    (optimizeRun svc options metaDir buildDirectory fsRead fsWrite tree
        dur).serviceStarted = true ∧
    ((optimizeRun svc options metaDir buildDirectory fsRead fsWrite tree
        dur).serviceStopped = true ↔
      (optimizeRun svc options metaDir buildDirectory fsRead fsWrite tree dur).result
        = .ok ()) := by
  unfold optimizeRun
  cases hfr : firstRejection
      (runTasks svc options metaDir buildDirectory fsRead fsWrite tree dur) <;>
    simp

/-- C2 (counterexample): `Promise.all` settles at the earliest rejection
without waiting for the still-pending transforms: with one transform rejecting
at time 1 and another finishing at time 5, the orchestrator proceeds (throws)
at time 1, before every dispatched transform has finished. -/
theorem promiseAll_settles_before_all_finish :
    (optimizeRun exSvc {} "meta" "/out" exFsFail exFsWrite exTreeFail exDur).settleTime
        = 1 ∧
    ∃ t ∈ (optimizeRun exSvc {} "meta" "/out" exFsFail exFsWrite exTreeFail exDur).tasks,
      (optimizeRun exSvc {} "meta" "/out" exFsFail exFsWrite exTreeFail exDur).settleTime
        < t.finishTime := by
  decide

/-- C2 (amended): on the successful path the orchestrator's `await Promise.all`
is a barrier — it proceeds only at the latest completion time, so every
dispatched transform has finished before the emitter reads the set — and the
emitter runs exactly there; but when any transform rejects, the pass aborts at
the earliest rejection without waiting for still-pending transforms, and the
emitter never runs (so it still never observes a partially-built set). -/
theorem optimizeRun_barrier (svc : Services) (options : OptimizePluginOptions)
    (metaDir buildDirectory : String) (fsRead : String → Except String String)
    (fsWrite : String → String → Except String Unit)
    (tree : List DirEntry) (dur : String → Nat) :
    ((optimizeRun svc options metaDir buildDirectory fsRead fsWrite tree dur).result
        = .ok () →
      (∀ t ∈ (optimizeRun svc options metaDir buildDirectory fsRead fsWrite tree dur).tasks,
          t.finishTime ≤
            (optimizeRun svc options metaDir buildDirectory fsRead fsWrite tree
              dur).settleTime) ∧
        (optimizeRun svc options metaDir buildDirectory fsRead fsWrite tree
          dur).emitted.isSome = true) ∧
    (∀ e, (optimizeRun svc options metaDir buildDirectory fsRead fsWrite tree dur).result
        = .error e →
      (optimizeRun svc options metaDir buildDirectory fsRead fsWrite tree dur).emitted
        = none) := by
  unfold optimizeRun
  cases hfr : firstRejection
      (runTasks svc options metaDir buildDirectory fsRead fsWrite tree dur) with
  | some t =>
    constructor
    · intro h
      simp at h
    · intro e _
      rfl
  | none =>
    constructor
    · intro _
      exact ⟨le_maxFinish _, rfl⟩
    · intro e h
      simp at h

theorem optimizeRun_barrier_witness :
    (∀ t ∈ (optimizeRun exSvc {} "meta" "/out" exFs exFsWrite exTree exDur).tasks,
        t.finishTime ≤
          (optimizeRun exSvc {} "meta" "/out" exFs exFsWrite exTree exDur).settleTime) ∧
      (optimizeRun exSvc {} "meta" "/out" exFs exFsWrite exTree exDur).emitted.isSome
        = true :=
  (optimizeRun_barrier exSvc {} "meta" "/out" exFs exFsWrite exTree exDur).1 (by decide)

end PluginOptimize
